import Mathlib

/-!
Formal model of the memory subsystem of the STAN emotional-chatbot repository.

The definitions below are a shallow embedding, translated from
`backend/services/memoryService.js`, the Mongoose memory model
(`backend/models/Memory.js`) and the chat route (`backend/routes/chat.js`):

* JavaScript numbers that hold integers (importance, access counts,
  millisecond timestamps, ids) become `Int` / `Nat`; fractional scores
  (sentiment, effectiveness) become `ℚ`.
* The MongoDB collection becomes a `List Memory` in natural (insertion)
  order; `findOne` / `find` become `List.find?` / `List.filter`, a Mongo
  sort becomes `List.insertionSort` with the corresponding lexicographic
  key, `updateMany` becomes `List.map`, `deleteMany` becomes `List.filter`.
* The JavaScript regular expressions of `extractInsights` are embedded by
  a small matcher (`runPattern`): every pattern of the source is an
  ordered alternation of branches, each branch a case-insensitive literal
  optionally followed by one capturing group (`\w+`, `\d+` with a literal
  suffix, or the lazy `(.+?)` terminated by `.`/`,`/end of string).  The
  matcher implements the JavaScript semantics: leftmost match position
  wins, at a given position alternatives are tried in source order, and
  the extracted content is `match[1] || match[2] || match[3] || match[0]`.
* `$regex: insight.content` is modelled as case-insensitive substring
  containment (none of the contents at issue contain regex
  metacharacters).
-/

namespace Stan

/-! ## Character and string utilities -/

/-- Case-insensitive character comparison (JavaScript `i` regex flag). -/
def lowEq (p c : Char) : Bool := p.toLower == c.toLower

/-- Check `leadSeg needle hay`: `needle` is a leading segment of `hay`
(exact character equality; inputs are lowered by the caller). -/
def leadSeg : List Char → List Char → Bool
  | [], _ => true
  | _ :: _, [] => false
  | a :: as, b :: bs => a == b && leadSeg as bs

/-- Check `hasSeg needle hay`: `needle` occurs as a contiguous segment of `hay`
(JavaScript `String.prototype.includes`). -/
def hasSeg (needle : List Char) : List Char → Bool
  | [] => needle.isEmpty
  | c :: cs => leadSeg needle (c :: cs) || hasSeg needle cs

/-- Case-insensitive substring containment: `hay` contains `needle`
(model of Mongo `content: { $regex: needle, $options: "i" }` for a
metacharacter-free `needle`, and of `text.includes` after lowering). -/
def ciContains (hay needle : String) : Bool :=
  hasSeg (needle.toList.map Char.toLower) (hay.toList.map Char.toLower)

/-- JavaScript `String.prototype.trim` on a character list. -/
def trimChars (l : List Char) : List Char :=
  ((l.dropWhile Char.isWhitespace).reverse.dropWhile Char.isWhitespace).reverse

/-- Worker for `[...new Set(tags)]`: deduplication keeping first occurrences. -/
def setDedupGo (seen : List String) : List String → List String
  | [] => []
  | x :: xs => if seen.contains x then setDedupGo seen xs else x :: setDedupGo (x :: seen) xs

/-- JavaScript `[...new Set(tags)]`. -/
def setDedup (l : List String) : List String := setDedupGo [] l

/-! ## Regex embedding -/

/-- What follows a branch’s literal: nothing, a `(\w+)` capture, a
`(\d+)` capture followed by a literal suffix, or a lazy `(.+?)` capture
terminated by `(?:\.|$|,)`. -/
inductive CapSpec
  | noCap
  | wordCap
  | digitsThen (suf : String)
  | lazyCap
deriving DecidableEq, Repr

/-- One alternative of a source regex: a case-insensitive literal `pre`
followed by `cap`. -/
structure RxBranch where
  pre : String
  cap : CapSpec
deriving DecidableEq, Repr

/-- JavaScript `\w` (ASCII word character). -/
def wordChar (c : Char) : Bool := c.isAlphanum || c == '_'

/-- Case-insensitive literal match; returns the rest of the text. -/
def matchLit : List Char → List Char → Option (List Char)
  | [], t => some t
  | _ :: _, [] => none
  | p :: ps, c :: cs => if lowEq p c then matchLit ps cs else none

/-- Lazy `(.+?)(?:\.|$|,)`: consume the minimal nonempty run of
non-newline characters after which `.`, `,` or the end of the string
follows; returns the captured run. -/
def lazyGo (acc : List Char) : List Char → Option (List Char)
  | [] => if acc.isEmpty then none else some acc.reverse
  | c :: cs =>
    if !acc.isEmpty && (c == '.' || c == ',') then some acc.reverse
    else if c == '\n' || c == '\r' then none
    else lazyGo (c :: acc) cs

/-- Try one branch at the current position; returns the extracted content
(`match[k]` for the branch’s group, or `match[0]` for a pure literal). -/
def runBranchAt (b : RxBranch) (t : List Char) : Option (List Char) :=
  match matchLit b.pre.toList t with
  | none => none
  | some rest =>
    match b.cap with
    | .noCap => some (t.take b.pre.length)
    | .wordCap =>
      let w := rest.takeWhile wordChar
      if w.isEmpty then none else some w
    | .digitsThen suf =>
      let d := rest.takeWhile Char.isDigit
      if d.isEmpty then none
      else
        match matchLit suf.toList (rest.drop d.length) with
        | some _ => some d
        | none => none
    | .lazyCap => lazyGo [] rest

/-- Try the branches of an alternation in source order at one position. -/
def tryBranches : List RxBranch → List Char → Option (List Char)
  | [], _ => none
  | b :: bs, t =>
    match runBranchAt b t with
    | some r => some r
    | none => tryBranches bs t

/-- Scan positions left to right (JavaScript leftmost-match rule). -/
def runPattern (bs : List RxBranch) : List Char → Option (List Char)
  | [] => tryBranches bs []
  | c :: cs =>
    match tryBranches bs (c :: cs) with
    | some r => some r
    | none => runPattern bs cs

/-! ## Data model (`backend/models/Memory.js`) -/

/-- The closed `type` enumeration of the memory schema. -/
inductive MemType
  | personal_fact
  | preference
  | emotional_pattern
  | significant_event
  | relationship
  | goal
  | concern
  | achievement
  | routine
  | value
  | trigger
  | coping_mechanism
  | communication_style
  | fake_memory
deriving DecidableEq, Repr

/-- The stored string of each `type` value. -/
def memTypeStr : MemType → String
  | .personal_fact => "personal_fact"
  | .preference => "preference"
  | .emotional_pattern => "emotional_pattern"
  | .significant_event => "significant_event"
  | .relationship => "relationship"
  | .goal => "goal"
  | .concern => "concern"
  | .achievement => "achievement"
  | .routine => "routine"
  | .value => "value"
  | .trigger => "trigger"
  | .coping_mechanism => "coping_mechanism"
  | .communication_style => "communication_style"
  | .fake_memory => "fake_memory"

/-- A Memory document, restricted to the fields the memory subsystem
reads or writes.  Timestamps are milliseconds since the epoch (`Int`);
`id` stands for Mongo’s `_id`. -/
structure Memory where
  id : Nat
  userId : String
  type : MemType
  content : String
  importance : Int
  sentiment : ℚ
  userEmotionWhenShared : Option String
  tags : List String
  relevantContexts : List String
  accessCount : Nat
  lastAccessed : Int
  effectiveness : ℚ
  isActive : Bool
  createdAt : Int
  updatedAt : Int
deriving DecidableEq, Repr

/-- An insight candidate produced by `extractInsights` (the fields the
rest of the pipeline consumes). -/
structure Insight where
  type : MemType
  content : String
  importance : Int
  sentiment : ℚ
  confidence : Option ℚ
  tags : List String
deriving DecidableEq, Repr

/-! ## Insight extraction (`memoryService.extractInsights`) -/

/-- The `emotionToSentiment` table of `memoryService.js`. -/
def emotionToSentiment (e : String) : ℚ :=
  if e == "happy" then 0.8
  else if e == "excited" then 0.9
  else if e == "content" then 0.6
  else if e == "sad" then -0.7
  else if e == "angry" then -0.8
  else if e == "frustrated" then -0.6
  else if e == "anxious" then -0.5
  else if e == "nervous" then -0.4
  else if e == "neutral" then 0
  else 0

/-- Keyword lists of `extractTags`. -/
def emotionWords : List String :=
  ["happy", "sad", "angry", "excited", "nervous", "anxious", "confident", "frustrated"]

/-- Topic keyword list of `extractTags`. -/
def topicWords : List String :=
  ["work", "family", "relationship", "health", "hobby", "travel", "money", "education"]

/-- Activity keyword list of `extractTags`. -/
def activityWords : List String :=
  ["exercise", "reading", "music", "cooking", "sports", "gaming", "art", "technology"]

/-- Lowercase a string as a character list (JS `content.toLowerCase()`). -/
def lowerChars (s : String) : List Char := s.toList.map Char.toLower

/-- Model of `extractTags(content, type)`: the tag list always starts with the
type string, then adds every emotion/topic/activity keyword occurring in
the lowered content, deduplicated. -/
def extractTags (content : String) (t : MemType) : List String :=
  let text := lowerChars content
  setDedup (memTypeStr t ::
    (emotionWords.filter (fun w => hasSeg w.toList text)
      ++ topicWords.filter (fun w => hasSeg w.toList text)
      ++ activityWords.filter (fun w => hasSeg w.toList text)))

/-- One entry of the `allPatterns` table: the embedded regex together
with the rule’s type, importance and sentiment (`pattern.sentiment || 0`). -/
structure PatternRule where
  branches : List RxBranch
  type : MemType
  importance : Int
  sentiment : ℚ
deriving Repr

/-- The `allPatterns` table of `extractInsights`, in source order:
personal facts, preferences, emotional/relationship patterns, goals,
significant events. -/
def allPatterns : List PatternRule :=
  [ -- /my name is (\w+)|i’m (\w+)|call me (\w+)/i
    ⟨[⟨"my name is ", .wordCap⟩, ⟨"i\x27m ", .wordCap⟩, ⟨"call me ", .wordCap⟩],
      .personal_fact, 9, 0⟩,
    -- /i am (\d+) years old|i’m (\d+)/i
    ⟨[⟨"i am ", .digitsThen " years old"⟩, ⟨"i\x27m ", .digitsThen ""⟩],
      .personal_fact, 7, 0⟩,
    -- /i work as|my job is|i’m a (.+?)(?:\.|$|,)/i
    ⟨[⟨"i work as", .noCap⟩, ⟨"my job is", .noCap⟩, ⟨"i\x27m a ", .lazyCap⟩],
      .personal_fact, 8, 0⟩,
    -- /i live in|i’m from|i’m in (.+?)(?:\.|$|,)/i
    ⟨[⟨"i live in", .noCap⟩, ⟨"i\x27m from", .noCap⟩, ⟨"i\x27m in ", .lazyCap⟩],
      .personal_fact, 6, 0⟩,
    -- /i love|i really like|i enjoy|i’m passionate about (.+?)(?:\.|$|,)/i
    ⟨[⟨"i love", .noCap⟩, ⟨"i really like", .noCap⟩, ⟨"i enjoy", .noCap⟩,
      ⟨"i\x27m passionate about ", .lazyCap⟩], .preference, 7, 0.8⟩,
    -- /i hate|i can’t stand|i dislike (.+?)(?:\.|$|,)/i
    ⟨[⟨"i hate", .noCap⟩, ⟨"i can\x27t stand", .noCap⟩, ⟨"i dislike ", .lazyCap⟩],
      .preference, 7, -0.8⟩,
    -- /my favorite|i prefer (.+?)(?:\.|$|,)/i
    ⟨[⟨"my favorite", .noCap⟩, ⟨"i prefer ", .lazyCap⟩], .preference, 6, 0.6⟩,
    -- /i feel|i’m feeling|i’ve been feeling (.+?)(?:\.|$|,)/i
    ⟨[⟨"i feel", .noCap⟩, ⟨"i\x27m feeling", .noCap⟩, ⟨"i\x27ve been feeling ", .lazyCap⟩],
      .emotional_pattern, 8, 0⟩,
    -- /i’m worried about|i’m concerned about|i’m anxious about (.+?)(?:\.|$|,)/i
    ⟨[⟨"i\x27m worried about", .noCap⟩, ⟨"i\x27m concerned about", .noCap⟩,
      ⟨"i\x27m anxious about ", .lazyCap⟩], .concern, 9, 0⟩,
    -- /my (?:partner|boyfriend|girlfriend|husband|wife|friend) (.+?)(?:\.|$|,)/i
    ⟨[⟨"my partner ", .lazyCap⟩, ⟨"my boyfriend ", .lazyCap⟩, ⟨"my girlfriend ", .lazyCap⟩,
      ⟨"my husband ", .lazyCap⟩, ⟨"my wife ", .lazyCap⟩, ⟨"my friend ", .lazyCap⟩],
      .relationship, 8, 0⟩,
    -- /i want to|i hope to|my goal is|i’m trying to (.+?)(?:\.|$|,)/i
    ⟨[⟨"i want to", .noCap⟩, ⟨"i hope to", .noCap⟩, ⟨"my goal is", .noCap⟩,
      ⟨"i\x27m trying to ", .lazyCap⟩], .goal, 8, 0⟩,
    -- /i need to|i have to|i must (.+?)(?:\.|$|,)/i
    ⟨[⟨"i need to", .noCap⟩, ⟨"i have to", .noCap⟩, ⟨"i must ", .lazyCap⟩], .goal, 7, 0⟩,
    -- /yesterday|last week|last month|recently (.+?)(?:\.|$|,)/i
    ⟨[⟨"yesterday", .noCap⟩, ⟨"last week", .noCap⟩, ⟨"last month", .noCap⟩,
      ⟨"recently ", .lazyCap⟩], .significant_event, 7, 0⟩,
    -- /when i was|growing up|as a child (.+?)(?:\.|$|,)/i
    ⟨[⟨"when i was", .noCap⟩, ⟨"growing up", .noCap⟩, ⟨"as a child ", .lazyCap⟩],
      .significant_event, 6, 0⟩ ]

/-- Model of `extractInsights(message, context)`: run each pattern of the table on
the message (pattern insights carry `confidence: 0.8` and
`tags: extractTags(content, type)`), then, when `context.emotion` is
present and not `"neutral"`, append the context-based
`emotional_pattern` insight (which sets no confidence). -/
def extractInsights (message : String) (emotion : Option String) : List Insight :=
  (allPatterns.filterMap fun p =>
    (runPattern p.branches message.toList).map fun raw =>
      let content := String.mk (trimChars raw)
      { type := p.type, content := content, importance := p.importance,
        sentiment := p.sentiment, confidence := some 0.8,
        tags := extractTags content p.type })
  ++ (match emotion with
      | some e =>
        if e != "neutral" then
          [{ type := .emotional_pattern,
             content := "User expressed " ++ e ++ " emotion in conversation",
             importance := 6, sentiment := emotionToSentiment e,
             confidence := none, tags := [e, "emotional_pattern"] }]
        else []
      | none => [])

/-! ## Memory store operations (`memoryService.js`, `Memory.js`) -/

/-- The `maxMemoriesPerQuery` constant of the `MemoryService` constructor. -/
def maxMemoriesPerQuery : Nat := 10

/-- Model of `storeMemory(userId, memoryData)` for the data
`processConversationForMemories` passes: a fresh document with
`usage = { accessCount: 0, lastAccessed: now, effectiveness: 0.5 }`,
`importance: insight.importance || 5`, `sentiment: insight.sentiment || 0`,
`tags: insight.tags || []`, `isActive` defaulting to `true`. -/
def storeMemory (uid : String) (now : Int) (newId : Nat) (ins : Insight) : Memory :=
  { id := newId, userId := uid, type := ins.type, content := ins.content,
    importance := if ins.importance = 0 then 5 else ins.importance,
    sentiment := ins.sentiment, userEmotionWhenShared := none,
    tags := ins.tags, relevantContexts := [], accessCount := 0,
    lastAccessed := now, effectiveness := 0.5, isActive := true,
    createdAt := now, updatedAt := now }

/-- The `findOne` predicate of `findSimilarMemory(userId, insight)`:
same owner, same type, active; for `personal_fact` additionally
`content: { $regex: insight.content, $options: "i" }` (the existing
content contains the new content), for `preference` additionally
`metadata.tags: { $in: insight.tags }` (tag sets intersect; Mongo
`$in []` matches nothing). -/
def similarPred (uid : String) (ins : Insight) (m : Memory) : Bool :=
  m.userId == uid && decide (m.type = ins.type) && m.isActive &&
  (if ins.type = MemType.personal_fact then ciContains m.content ins.content else true) &&
  (if ins.type = MemType.preference then ins.tags.any (fun t => m.tags.contains t) else true)

/-- Model of `findSimilarMemory`: `Memory.findOne(query)` in natural order. -/
def findSimilarMemory (uid : String) (ins : Insight) (store : List Memory) : Option Memory :=
  store.find? (similarPred uid ins)

/-- Model of `updateMemory(memoryId, newInsight)`: overwrite the content, raise
importance to the max, refresh `usage.lastAccessed`; the save bumps
`updatedAt`.  (The source also raises `context.confidence` and clears
`metadata.needsUpdate`, fields outside this model.) -/
def updateMemory (now : Int) (ins : Insight) (m : Memory) : Memory :=
  { m with content := ins.content,
           importance := max m.importance (if ins.importance = 0 then 5 else ins.importance),
           lastAccessed := now, updatedAt := now }

/-- One iteration of the insight loop of
`processConversationForMemories`: merge into the similar memory if one
exists, otherwise store a new memory (with the next fresh id) and record
it in the returned list.  State is `(store, storedMemories, nextId)`. -/
def resolveStep (uid : String) (now : Int) :
    List Memory × List Memory × Nat → Insight → List Memory × List Memory × Nat
  | (store, newMems, nextId), ins =>
    match findSimilarMemory uid ins store with
    | some m =>
      (store.map fun x => if x.id = m.id then updateMemory now ins x else x, newMems, nextId)
    | none =>
      let mem := storeMemory uid now nextId ins
      (store ++ [mem], newMems ++ [mem], nextId + 1)

/-- Model of `processConversationForMemories(userId, message, context)`: extract
insights and resolve each against the store in order.  Returns the new
store, the list of newly stored memories, and the next fresh id. -/
def processConversationForMemories (uid message : String) (emotion : Option String)
    (now : Int) (nextId : Nat) (store : List Memory) : List Memory × List Memory × Nat :=
  (extractInsights message emotion).foldl (resolveStep uid now) (store, [], nextId)

/-! ## Relevance retrieval (`memoryService.getRelevantMemories`) -/

/-- The context filter of `getRelevantMemories`. -/
structure RetrievalContext where
  emotion : Option String
  topics : List String
  conversationType : Option String
deriving DecidableEq, Repr

/-- The empty filter `{}`. -/
def emptyCtx : RetrievalContext := ⟨none, [], none⟩

/-- The Mongo query of `getRelevantMemories`: owner, active, then
`$or: [emotionWhenShared = e, tags ∋ e]` when an emotion is given,
`tags ∩ topics ≠ ∅` when topics are given, and
`usage.relevantContexts ∋ t` when a conversation type is given. -/
def queryMatch (uid : String) (ctx : RetrievalContext) (m : Memory) : Bool :=
  m.userId == uid && m.isActive &&
  (match ctx.emotion with
   | some e => (m.userEmotionWhenShared == some e) || m.tags.contains e
   | none => true) &&
  (if ctx.topics.isEmpty then true else m.tags.any (fun t => ctx.topics.contains t)) &&
  (match ctx.conversationType with
   | some t => m.relevantContexts.contains t
   | none => true)

/-- The Mongo sort key
`{ importance: -1, lastAccessed: -1, effectiveness: -1 }` as a total
preorder: `a` comes no later than `b`. -/
def mongoLe (a b : Memory) : Prop :=
  a.importance > b.importance ∨
    (a.importance = b.importance ∧
      (a.lastAccessed > b.lastAccessed ∨
        (a.lastAccessed = b.lastAccessed ∧ a.effectiveness ≥ b.effectiveness)))

instance : DecidableRel mongoLe := fun a b => by
  unfold mongoLe; infer_instance

instance : IsTotal Memory mongoLe :=
  ⟨fun a b => by
    unfold mongoLe
    rcases lt_trichotomy a.importance b.importance with h | h | h
    · exact Or.inr (Or.inl h)
    · rcases lt_trichotomy a.lastAccessed b.lastAccessed with h2 | h2 | h2
      · exact Or.inr (Or.inr ⟨h.symm, Or.inl h2⟩)
      · rcases le_total a.effectiveness b.effectiveness with h3 | h3
        · exact Or.inr (Or.inr ⟨h.symm, Or.inr ⟨h2.symm, h3⟩⟩)
        · exact Or.inl (Or.inr ⟨h, Or.inr ⟨h2, h3⟩⟩)
      · exact Or.inl (Or.inr ⟨h, Or.inl h2⟩)
    · exact Or.inl (Or.inl h)⟩

instance : IsTrans Memory mongoLe :=
  ⟨fun a b c hab hbc => by
    unfold mongoLe at hab hbc ⊢
    rcases hab with h | ⟨he, h⟩
    · rcases hbc with g | ⟨ge, g⟩
      · exact Or.inl (by omega)
      · exact Or.inl (by omega)
    · rcases hbc with g | ⟨ge, g⟩
      · exact Or.inl (by omega)
      · refine Or.inr ⟨by omega, ?_⟩
        rcases h with h | ⟨he2, h⟩
        · rcases g with g | ⟨ge2, g⟩
          · exact Or.inl (by omega)
          · exact Or.inl (by omega)
        · rcases g with g | ⟨ge2, g⟩
          · exact Or.inl (by omega)
          · exact Or.inr ⟨by omega, le_trans g h⟩⟩

/-- Model of `Memory.recordAccess(effectiveness = null)` of the Mongoose model:
increment the access count, refresh `lastAccessed`, and when a signal is
supplied update the effectiveness as the moving average
`alpha * signal + (1 - alpha) * (this.usage.effectiveness || 0.5)` with
`alpha = 0.2` (a stored effectiveness of exactly `0` is falsy in
JavaScript, so `|| 0.5` replaces it by `0.5`). -/
def effUpdate (old s : ℚ) : ℚ :=
  0.2 * s + (1 - 0.2) * (if old = 0 then 0.5 else old)

/-- The `recordAccess` update applied to one document; the method ends
in `this.save()`, which under the schema option `timestamps: true` also
refreshes `updatedAt`. -/
def recordAccess (now : Int) (signal : Option ℚ) (m : Memory) : Memory :=
  { m with accessCount := m.accessCount + 1, lastAccessed := now, updatedAt := now,
           effectiveness :=
             match signal with
             | none => m.effectiveness
             | some s => effUpdate m.effectiveness s }

/-- The selection of `getRelevantMemories` before the access update:
filter by the query, sort by the Mongo key, cap at
`maxMemoriesPerQuery`. -/
def rankSelection (uid : String) (ctx : RetrievalContext) (store : List Memory) : List Memory :=
  (List.insertionSort mongoLe (store.filter (queryMatch uid ctx))).take maxMemoriesPerQuery

/-- Model of `getRelevantMemories(userId, context)`: select, then run
`recordAccess()` on every returned document.  Returns the returned list
(the mutated documents) and the store after the saves. -/
def getRelevantMemories (uid : String) (ctx : RetrievalContext) (now : Int)
    (store : List Memory) : List Memory × List Memory :=
  ((rankSelection uid ctx store).map (recordAccess now none),
   store.map fun m =>
     if ((rankSelection uid ctx store).map fun s => s.id).contains m.id then
       recordAccess now none m
     else m)

/-! ## Eviction sweep (`memoryService.cleanupMemories`) -/

/-- The `updateMany` filter of `cleanupMemories`: low importance, not
accessed since the cutoff (365 days before now), low effectiveness. -/
def softDeleteCond (uid : String) (cutoff : Int) (m : Memory) : Bool :=
  m.userId == uid && decide (m.importance < 3) && decide (m.lastAccessed < cutoff) &&
    decide (m.effectiveness < 0.3)

/-- The `deleteMany` filter of `cleanupMemories`: fake memories not
accessed since the cutoff with fewer than two accesses. -/
def hardDeleteCond (uid : String) (cutoff : Int) (m : Memory) : Bool :=
  m.userId == uid && decide (m.type = MemType.fake_memory) &&
    decide (m.lastAccessed < cutoff) && decide (m.accessCount < 2)

/-- Model of `cleanupMemories(userId)`: first `updateMany(softFilter,
{ isActive: false })` — under `timestamps: true` Mongoose also sets
`updatedAt` on every updated document — then `deleteMany(hardFilter)`,
with `cutoffDate = now - 365 days`. -/
def cleanupMemories (uid : String) (now : Int) (store : List Memory) : List Memory :=
  ((store.map fun m =>
      if softDeleteCond uid (now - 365 * 86400000) m then
        { m with isActive := false, updatedAt := now }
      else m).filter
    fun m => !hardDeleteCond uid (now - 365 * 86400000) m)

/-! ## Feedback route (`routes/chat.js`, `POST /api/chat/feedback`) -/

/-- The methods defined on the `MemoryService` class in
`memoryService.js` (there is no `updateMemoryEffectiveness`, although
the technical documentation lists one). -/
def memoryServiceMethods : List String :=
  ["storeMemory", "getRelevantMemories", "processConversationForMemories",
   "extractInsights", "extractTags", "determinatePrivacyLevel", "emotionToSentiment",
   "findSimilarMemory", "updateMemory", "createFakeMemory", "updateUserMemoryMetrics",
   "cleanupMemories", "getMemoryAnalytics"]

/-- The effectiveness signal the feedback route derives from the
feedback label. -/
def feedbackSignal (fb : String) : ℚ :=
  if fb == "perfect" then 1.0
  else if fb == "helpful" then 0.8
  else if fb == "not_helpful" then 0.3
  else 0.1

/-- The memory-effectiveness part of the feedback route: when the rated
message triggered memories, the route maps each triggered id through
`memoryService.updateMemoryEffectiveness(memoryId, effectiveness)`.
`MemoryService` defines no such method, so in JavaScript the property
lookup yields `undefined` and the call raises
`TypeError: memoryService.updateMemoryEffectiveness is not a function`,
which the route’s `catch` turns into an HTTP 500 with no store change.
The `ok` arm for a successful dispatch is dead code, reached only if the
method existed on the class. -/
def feedbackRoute (memoryTriggered : List String) (fb : String) (store : List Memory) :
    Except String (List Memory) :=
  if memoryTriggered.isEmpty then .ok store
  else if memoryServiceMethods.contains "updateMemoryEffectiveness" then
    .ok store
  else
    .error "TypeError: memoryService.updateMemoryEffectiveness is not a function"

/-! ## Unused composite score of the Mongoose model (`Memory.js`) -/

/-- Model of `getRecencyScore()` of the Mongoose model (days since last access,
bucketed to 10/8/6/4/2/1). -/
def getRecencyScore (now lastAccessed : Int) : ℚ :=
  let days : ℚ := (now - lastAccessed : ℤ) / 86400000
  if days < 1 then 10 else if days < 7 then 8 else if days < 30 then 6
  else if days < 90 then 4 else if days < 365 then 2 else 1

/-- The virtual `relevanceScore` of the Mongoose model
(`(importance*0.4 + recency*0.3 + usage*0.2 + effectiveness*0.1) / 10`);
defined by the schema but consulted nowhere in the service. -/
def relevanceScore (now : Int) (m : Memory) : ℚ :=
  ((m.importance : ℚ) * 0.4 + getRecencyScore now m.lastAccessed * 0.3 +
    (min m.accessCount 10 : ℕ) / 10 * 0.2 + m.effectiveness * 0.1) / 10

/-! ## Spec-side definitions (for refinement comparison only) -/

/-- The recency bucket function stated by the specification
(`<1 day→1.0, <7→0.8, <30→0.6, <90→0.4, <365→0.2, else 0.1`); written
from the spec’s words, to be compared with the source behaviour. -/
def specRecencyScore (now lastAccessed : Int) : ℚ :=
  let days : ℚ := (now - lastAccessed : ℤ) / 86400000
  if days < 1 then 1 else if days < 7 then 0.8 else if days < 30 then 0.6
  else if days < 90 then 0.4 else if days < 365 then 0.2 else 0.1

/-- The composite ordering score stated by the specification:
`0.4*normalize(importance,1,10) + 0.3*recencyScore + 0.2*min(accessCount,10)/10
+ 0.1*effectiveness`; written from the spec’s words. -/
def specCompositeScore (now : Int) (m : Memory) : ℚ :=
  0.4 * (((m.importance : ℚ) - 1) / 9) + 0.3 * specRecencyScore now m.lastAccessed +
    0.2 * ((min m.accessCount 10 : ℕ) / 10) + 0.1 * m.effectiveness

/-- The ordering the claim states for retrieval results: strictly higher
composite score first, ties by `updatedAt` descending then `id`
ascending; written from the spec’s words. -/
def specOrder (now : Int) (a b : Memory) : Prop :=
  specCompositeScore now a > specCompositeScore now b ∨
    (specCompositeScore now a = specCompositeScore now b ∧
      (a.updatedAt > b.updatedAt ∨ (a.updatedAt = b.updatedAt ∧ a.id ≤ b.id)))

/-- The two-directional `personal_fact` similarity stated by the
specification: existing content contains the new content or conversely;
written from the spec’s words. -/
def specSimilarPF (existing new : String) : Bool :=
  ciContains existing new || ciContains new existing

/-- The active `personal_fact` memories of an owner, in store order. -/
def activePF (uid : String) (store : List Memory) : List Memory :=
  store.filter fun m =>
    m.userId == uid && decide (m.type = MemType.personal_fact) && m.isActive

/-- Whether a memory is a `personal_fact`. -/
def isPFMem (m : Memory) : Bool := decide (m.type = MemType.personal_fact)

/-! ## Concrete instances used by counterexamples and witnesses -/

/-- The end-to-end utterance of the spec’s testable scenario. -/
def c3Utterance : String := "My favorite color is blue and I study at MIT"

/-- An utterance whose first extracted fact strictly contains its
second (`X252` contains `25`). -/
def c7Utterance : String := "My name is X252 and I am 25 years old"

/-- A single-fact utterance (one `personal_fact` candidate, `Dana`). -/
def c7SingleMsg : String := "My name is Dana"

/-- A `personal_fact` candidate whose content strictly contains an
existing memory’s content. -/
def c2Insight : Insight :=
  { type := .personal_fact, content := "study at MIT", importance := 6, sentiment := 0,
    confidence := some 0.8, tags := ["personal_fact"] }

/-- An existing active memory whose content is a proper substring of
`c2Insight`’s content. -/
def c2Existing : Memory :=
  { id := 1, userId := "u", type := .personal_fact, content := "MIT", importance := 6,
    sentiment := 0, userEmotionWhenShared := none, tags := ["personal_fact"],
    relevantContexts := [], accessCount := 0, lastAccessed := 0, effectiveness := 1,
    isActive := true, createdAt := 0, updatedAt := 0 }

/-- A generic active memory of owner `"u"`. -/
def wMem : Memory :=
  { id := 7, userId := "u", type := .personal_fact, content := "I study at MIT",
    importance := 9, sentiment := 0, userEmotionWhenShared := none,
    tags := ["personal_fact"], relevantContexts := [], accessCount := 2,
    lastAccessed := 3, effectiveness := 1, isActive := true, createdAt := 0, updatedAt := 0 }

/-- A `personal_fact` candidate contained in `wMem`’s content. -/
def w2Insight : Insight :=
  { type := .personal_fact, content := "MIT", importance := 6, sentiment := 0,
    confidence := some 0.8, tags := ["personal_fact"] }

/-- An active preference memory of owner `"u"` tagged `preference`. -/
def wPrefMem : Memory :=
  { id := 8, userId := "u", type := .preference, content := "I love",
    importance := 7, sentiment := 0, userEmotionWhenShared := none,
    tags := ["preference"], relevantContexts := [], accessCount := 0,
    lastAccessed := 0, effectiveness := 1, isActive := true, createdAt := 0, updatedAt := 0 }

/-- A preference candidate about an unrelated topic, still tagged
`preference` (as `extractTags` always tags it). -/
def wPrefInsight : Insight :=
  { type := .preference, content := "My favorite", importance := 6, sentiment := 0,
    confidence := some 0.8, tags := ["preference"] }

/-- An active memory belonging to owner `"alice"`. -/
def w8Mem : Memory :=
  { id := 9, userId := "alice", type := .personal_fact, content := "likes tea",
    importance := 5, sentiment := 0, userEmotionWhenShared := none,
    tags := ["personal_fact"], relevantContexts := [], accessCount := 0,
    lastAccessed := 0, effectiveness := 1, isActive := true, createdAt := 0, updatedAt := 0 }

/-- A timestamp about 463 days after the epoch, used as "now" in
staleness scenarios. -/
def staleNow : Int := 40000000000

/-- Fresh, frequently used, highly effective but mid-importance memory:
its composite spec score beats `c1MemB`’s. -/
def c1MemA : Memory :=
  { id := 1, userId := "u", type := .personal_fact, content := "a", importance := 5,
    sentiment := 0, userEmotionWhenShared := none, tags := [], relevantContexts := [],
    accessCount := 10, lastAccessed := 40000000000, effectiveness := 1, isActive := true,
    createdAt := 0, updatedAt := 0 }

/-- Stale, never-used, ineffective memory of higher importance: the
Mongo sort ranks it above `c1MemA`. -/
def c1MemB : Memory :=
  { id := 2, userId := "u", type := .personal_fact, content := "b", importance := 6,
    sentiment := 0, userEmotionWhenShared := none, tags := [], relevantContexts := [],
    accessCount := 0, lastAccessed := 0, effectiveness := 0, isActive := true,
    createdAt := 0, updatedAt := 0 }

/-- An unimportant, stale, ineffective memory: eligible for
soft-deletion at `staleNow`. -/
def c6Mem : Memory :=
  { id := 5, userId := "u", type := .personal_fact, content := "x", importance := 1,
    sentiment := 0, userEmotionWhenShared := none, tags := [], relevantContexts := [],
    accessCount := 0, lastAccessed := 0, effectiveness := 0, isActive := true,
    createdAt := 0, updatedAt := 0 }

/-! ## Helper lemmas -/

theorem leadSeg_self : ∀ l : List Char, leadSeg l l = true
  | [] => rfl
  | a :: as => by simp [leadSeg, leadSeg_self as]

theorem hasSeg_self (l : List Char) : hasSeg l l = true := by
  cases l with
  | nil => rfl
  | cons c cs => simp [hasSeg, leadSeg_self]

theorem ciContains_self (s : String) : ciContains s s = true := by
  simp [ciContains, hasSeg_self]

theorem filter_map_comm {α : Type} (f : α → α) (p : α → Bool) (h : ∀ x, p (f x) = p x) :
    ∀ l : List α, (l.map f).filter p = (l.filter p).map f := by
  intro l
  induction l with
  | nil => rfl
  | cons x xs ih =>
    by_cases hx : p x = true
    · simp [List.filter_cons, hx, h x, ih]
    · simp only [Bool.not_eq_true] at hx
      simp [List.filter_cons, hx, h x, ih]

theorem countP_map_eq {α : Type} (f : α → α) (p : α → Bool) (h : ∀ x, p (f x) = p x) :
    ∀ l : List α, (l.map f).countP p = l.countP p := by
  intro l
  induction l with
  | nil => rfl
  | cons x xs ih => simp [List.countP_cons, h x, ih]

theorem find?_unique {α : Type} (p : α → Bool) (a : α) :
    ∀ l : List α, a ∈ l → p a = true → (∀ b ∈ l, p b = true → b = a) →
      l.find? p = some a := by
  intro l
  induction l with
  | nil => intro h; cases h
  | cons x xs ih =>
    intro hmem hpa huniq
    by_cases hx : p x = true
    · rw [List.find?_cons_of_pos _ hx]
      exact congrArg some (huniq x (List.mem_cons_self _ _) hx)
    · simp only [Bool.not_eq_true] at hx
      rw [List.find?_cons_of_neg _ (by simp [hx])]
      rcases List.mem_cons.mp hmem with rfl | hmem2
      · rw [hpa] at hx; cases hx
      · exact ih hmem2 hpa fun b hb hpb => huniq b (List.mem_cons_of_mem _ hb) hpb

theorem pairwise_ids_map (f : Memory → Memory) (h : ∀ x, (f x).id = x.id)
    (l : List Memory) (hp : l.Pairwise fun a b => a.id ≠ b.id) :
    (l.map f).Pairwise fun a b => a.id ≠ b.id := by
  rw [List.pairwise_map]
  exact hp.imp fun {a b} hne => by simpa [h a, h b] using hne

theorem pairwise_ids_ne {l : List Memory} (hp : l.Pairwise fun a b => a.id ≠ b.id)
    {a b : Memory} (ha : a ∈ l) (hb : b ∈ l) (hne : a ≠ b) : a.id ≠ b.id := by
  induction l with
  | nil => cases ha
  | cons x xs ih =>
    rcases List.pairwise_cons.mp hp with ⟨hx, hxs⟩
    rcases List.mem_cons.mp ha with rfl | ha2
    · rcases List.mem_cons.mp hb with rfl | hb2
      · exact absurd rfl hne
      · exact hx b hb2
    · rcases List.mem_cons.mp hb with rfl | hb2
      · exact (hx a ha2).symm
      · exact ih hxs ha2 hb2

theorem similarPred_pf_iff (uid : String) (ins : Insight) (m : Memory)
    (h : ins.type = MemType.personal_fact) :
    similarPred uid ins m = true ↔
      (m.userId = uid ∧ m.type = MemType.personal_fact ∧ m.isActive = true ∧
        ciContains m.content ins.content = true) := by
  simp [similarPred, h, Bool.and_eq_true, and_assoc]

theorem similarPred_pref_iff (uid : String) (ins : Insight) (m : Memory)
    (h : ins.type = MemType.preference) :
    similarPred uid ins m = true ↔
      (m.userId = uid ∧ m.type = MemType.preference ∧ m.isActive = true ∧
        (ins.tags.any fun t => m.tags.contains t) = true) := by
  simp [similarPred, h, Bool.and_eq_true, and_assoc]

theorem mem_activePF (uid : String) (m : Memory) (store : List Memory) :
    m ∈ activePF uid store ↔
      (m ∈ store ∧ m.userId = uid ∧ m.type = MemType.personal_fact ∧ m.isActive = true) := by
  simp [activePF, List.mem_filter, Bool.and_eq_true, and_assoc]

theorem map_eq_self_of {α : Type} (l : List α) (f : α → α) (h : ∀ x ∈ l, f x = x) :
    l.map f = l := by
  induction l with
  | nil => rfl
  | cons x xs ih =>
    rw [List.map_cons, h x (List.mem_cons_self _ _),
      ih fun y hy => h y (List.mem_cons_of_mem _ hy)]

theorem setDedup_head_mem (x : String) (l : List String) : x ∈ setDedup (x :: l) := by
  show x ∈ setDedupGo [] (x :: l)
  rw [setDedupGo]
  simp only [List.contains, List.elem]
  exact List.mem_cons_self _ _

theorem extractTags_type_mem (content : String) (t : MemType) :
    memTypeStr t ∈ extractTags content t :=
  setDedup_head_mem _ _

theorem effUpdate_bounds (old s : ℚ) (h0 : 0 ≤ old) (h1 : old ≤ 1)
    (h2 : 0 ≤ s) (h3 : s ≤ 1) : 0 ≤ effUpdate old s ∧ effUpdate old s ≤ 1 := by
  unfold effUpdate
  split <;> constructor <;> nlinarith

theorem effUpdate_foldl_bounds :
    ∀ (sigs : List ℚ) (old : ℚ), 0 ≤ old → old ≤ 1 →
      (∀ x ∈ sigs, 0 ≤ x ∧ x ≤ 1) →
      0 ≤ sigs.foldl effUpdate old ∧ sigs.foldl effUpdate old ≤ 1 := by
  intro sigs
  induction sigs with
  | nil => intro old h0 h1 _; exact ⟨h0, h1⟩
  | cons s rest ih =>
    intro old h0 h1 hall
    have hs := hall s (List.mem_cons_self _ _)
    have hb := effUpdate_bounds old s h0 h1 hs.1 hs.2
    exact ih (effUpdate old s) hb.1 hb.2 fun x hx => hall x (List.mem_cons_of_mem _ hx)

/-! ## Claim C4 -/

/-- Claim C4 (code bug): recorded feedback on a message that triggered
memories is supposed to forward an EMA effectiveness update to each
triggered memory and complete without error; instead the route calls
`memoryService.updateMemoryEffectiveness`, a method the `MemoryService`
class never defines, so for every store the dispatch raises a
`TypeError` (caught as an HTTP 500) and no effectiveness is updated. -/
theorem C4_feedback_route_fails : ∀ store : List Memory,
    feedbackRoute ["someMemoryId"] "helpful" store =
      Except.error "TypeError: memoryService.updateMemoryEffectiveness is not a function"
    ∧ memoryServiceMethods.contains "updateMemoryEffectiveness" = false := by
  intro store
  constructor
  · rfl
  · rfl

/-! ## Claim C3 -/

/-- Claim C3 (code bug): processing
`"My favorite color is blue and I study at MIT"` for owner `u1` is
supposed to create `personal_fact` memories containing `blue` and `MIT`
that a later empty-filter retrieval returns.  Evaluating the extractor
and the pipeline shows the only insight is a `preference` with content
`"My favorite"` (the regex alternation puts the capture group on the
last alternative only, and no pattern covers "I study at"), so no stored
or retrieved memory mentions `blue` or `MIT` at all. -/
theorem C3_extraction_failure :
    ((extractInsights c3Utterance none).map fun i => (memTypeStr i.type, i.content))
        = [("preference", "My favorite")]
    ∧ ((extractInsights c3Utterance none).all fun i =>
        !(ciContains i.content "blue") && !(ciContains i.content "MIT")) = true
    ∧ (((processConversationForMemories "u1" c3Utterance none 0 1 []).1).map
        fun m => (memTypeStr m.type, m.content)) = [("preference", "My favorite")]
    ∧ (((getRelevantMemories "u1" emptyCtx 99
          (processConversationForMemories "u1" c3Utterance none 0 1 []).1).1).all
        fun m => !(ciContains m.content "blue") && !(ciContains m.content "MIT")) = true := by
  refine ⟨by decide, by decide, by decide, by decide⟩

/-! ## Claim C2 -/

/-- Claim C2 (counterexample): the claim states that `findSimilarMemory`
treats an existing active same-owner `personal_fact` memory as similar
when either content contains the other.  For the existing content `MIT`
and the candidate content `study at MIT` the spec-side two-directional
check holds, yet the code’s one-directional Mongo regex check
(`existing contains new` only) finds nothing. -/
theorem C2_counterexample :
    specSimilarPF c2Existing.content c2Insight.content = true
    ∧ c2Existing.userId = "u"
    ∧ c2Existing.type = c2Insight.type
    ∧ c2Existing.isActive = true
    ∧ findSimilarMemory "u" c2Insight [c2Existing] = none := by
  refine ⟨by decide, rfl, rfl, rfl, by decide⟩

/-- Claim C2 (amended): for a `personal_fact` candidate,
`findSimilarMemory` reports a similar memory exactly when the store has
an active memory of the same owner and kind whose content contains the
candidate’s content (one direction only: Mongo
`content: { $regex: insight.content, $options: "i" }`); the reverse
containment alone never triggers a match. -/
theorem C2_amended (uid : String) (ins : Insight) (store : List Memory)
    (h : ins.type = MemType.personal_fact) :
    ((findSimilarMemory uid ins store).isSome = true ↔
      ∃ m ∈ store, m.userId = uid ∧ m.type = MemType.personal_fact ∧
        m.isActive = true ∧ ciContains m.content ins.content = true)
    ∧ ∀ m, findSimilarMemory uid ins store = some m →
        (m ∈ store ∧ m.userId = uid ∧ m.type = MemType.personal_fact ∧
          m.isActive = true ∧ ciContains m.content ins.content = true) := by
  constructor
  · rw [findSimilarMemory, List.find?_isSome]
    constructor
    · rintro ⟨m, hm, hp⟩
      exact ⟨m, hm, (similarPred_pf_iff uid ins m h).mp hp⟩
    · rintro ⟨m, hm, hconds⟩
      exact ⟨m, hm, (similarPred_pf_iff uid ins m h).mpr hconds⟩
  · intro m hfind
    have hmem := List.mem_of_find?_eq_some hfind
    have hp := List.find?_some hfind
    have := (similarPred_pf_iff uid ins m h).mp hp
    exact ⟨hmem, this⟩

/-- Claim C2 amended, witness: a candidate `MIT` matches a stored active
memory `I study at MIT` of the same owner. -/
theorem C2_amended_witness :
    (findSimilarMemory "u" w2Insight [wMem]).isSome = true :=
  (C2_amended "u" w2Insight [wMem] rfl).1.mpr
    ⟨wMem, List.mem_cons_self _ _, rfl, rfl, rfl, by decide⟩

/-! ## Claim C5 -/

/-- Claim C5 (counterexample): the claim states the feedback update sets
effectiveness to `0.2*signal + 0.8*old` clamped to `[0,1]` for every
old value in `[0,1]`.  At `old = 0`, `signal = 0` the code computes
`0.4` (the JavaScript `|| 0.5` treats a stored `0` as falsy and
substitutes `0.5`), while the claimed clamped formula gives `0`. -/
theorem C5_counterexample :
    effUpdate 0 0 ≠ min 1 (max 0 (0.2 * 0 + (1 - 0.2) * 0)) := by
  unfold effUpdate
  norm_num

/-- Claim C5 (amended): for `old` and `signal` in `[0,1]` the update
computes `0.2*signal + 0.8*old` whenever `old ≠ 0`, but substitutes
`0.5` for a stored effectiveness of exactly `0` (JavaScript `|| 0.5`);
no clamping is performed and none is needed, as the result lies in
`[0,1]`, and after any sequence of in-range feedback signals the
effectiveness stays in `[0,1]`. -/
theorem C5_amended (old s : ℚ) (h0 : 0 ≤ old) (h1 : old ≤ 1) (h2 : 0 ≤ s) (h3 : s ≤ 1) :
    (old ≠ 0 → effUpdate old s = 0.2 * s + (1 - 0.2) * old)
    ∧ (old = 0 → effUpdate old s = 0.2 * s + (1 - 0.2) * 0.5)
    ∧ (0 ≤ effUpdate old s ∧ effUpdate old s ≤ 1)
    ∧ ∀ sigs : List ℚ, (∀ x ∈ sigs, 0 ≤ x ∧ x ≤ 1) →
        0 ≤ sigs.foldl effUpdate old ∧ sigs.foldl effUpdate old ≤ 1 := by
  refine ⟨fun hne => by simp [effUpdate, hne], fun he => by simp [effUpdate, he],
    effUpdate_bounds old s h0 h1 h2 h3, fun sigs hall =>
      effUpdate_foldl_bounds sigs old h0 h1 hall⟩

/-- Claim C5 amended, witness: starting from effectiveness `1`, the
signals `0` then `1` keep the effectiveness inside `[0,1]`. -/
theorem C5_amended_witness :
    0 ≤ List.foldl effUpdate 1 [0, 1] ∧ List.foldl effUpdate 1 [0, 1] ≤ 1 :=
  (C5_amended 1 0 zero_le_one le_rfl le_rfl zero_le_one).2.2.2 [0, 1] (by simp)

/-! ## Claim C6 -/

/-- Claim C6 (confirmed): the eviction sweep soft-deletes (sets
`isActive := false`) exactly the memories of the owner with
`importance < 3`, `lastAccessed` older than 365 days and
`effectiveness < 0.3`; it hard-deletes (removes from the store) exactly
the `fake_memory` documents of the owner older than 365 days with fewer
than two accesses; no memory of any other kind is removed. -/
theorem hard_of_soft (uid : String) (cutoff tnow : Int) (m0 : Memory) :
    hardDeleteCond uid cutoff
      (if softDeleteCond uid cutoff m0 then { m0 with isActive := false, updatedAt := tnow }
       else m0) =
    hardDeleteCond uid cutoff m0 := by
  by_cases h : softDeleteCond uid cutoff m0 = true
  · rw [if_pos h]
    rfl
  · rw [if_neg h]

theorem C6_sweep (uid : String) (now : Int) (store : List Memory) :
    (∀ m0 ∈ store, hardDeleteCond uid (now - 365 * 86400000) m0 = false →
      (if softDeleteCond uid (now - 365 * 86400000) m0 then
        { m0 with isActive := false, updatedAt := now }
       else m0) ∈ cleanupMemories uid now store)
    ∧ (∀ m0 ∈ store, m0.type ≠ MemType.fake_memory →
      (if softDeleteCond uid (now - 365 * 86400000) m0 then
        { m0 with isActive := false, updatedAt := now }
       else m0) ∈ cleanupMemories uid now store)
    ∧ (∀ m ∈ cleanupMemories uid now store,
        hardDeleteCond uid (now - 365 * 86400000) m = false ∧
        ∃ m0 ∈ store,
          m = if softDeleteCond uid (now - 365 * 86400000) m0 then
                { m0 with isActive := false, updatedAt := now }
              else m0)
    ∧ (∀ m0 : Memory, softDeleteCond uid (now - 365 * 86400000) m0 = true ↔
        (m0.userId = uid ∧ m0.importance < 3 ∧ m0.lastAccessed < now - 365 * 86400000 ∧
          m0.effectiveness < 0.3))
    ∧ (∀ m0 : Memory, hardDeleteCond uid (now - 365 * 86400000) m0 = true ↔
        (m0.userId = uid ∧ m0.type = MemType.fake_memory ∧
          m0.lastAccessed < now - 365 * 86400000 ∧ m0.accessCount < 2)) := by
  refine ⟨?_, ?_, ?_, ?_, ?_⟩
  · intro m0 hm0 hhard
    refine List.mem_filter.mpr ⟨List.mem_map_of_mem _ hm0, ?_⟩
    simp only [hard_of_soft, hhard]
    rfl
  · intro m0 hm0 htype
    have hhard : hardDeleteCond uid (now - 365 * 86400000) m0 = false := by
      simp [hardDeleteCond, htype]
    refine List.mem_filter.mpr ⟨List.mem_map_of_mem _ hm0, ?_⟩
    simp only [hard_of_soft, hhard]
    rfl
  · intro m hm
    rcases List.mem_filter.mp hm with ⟨hmap, hg⟩
    rcases List.mem_map.mp hmap with ⟨m0, hm0, heq⟩
    refine ⟨by simpa using hg, m0, hm0, heq.symm⟩
  · intro m0
    simp [softDeleteCond, Bool.and_eq_true, and_assoc]
  · intro m0
    simp [hardDeleteCond, Bool.and_eq_true, and_assoc]

/-- Claim C6, witness: at `staleNow` the unimportant, stale, ineffective
memory `c6Mem` is soft-deleted (kept in the store with
`isActive = false`) by the sweep. -/
theorem C6_sweep_witness :
    ({ c6Mem with isActive := false, updatedAt := staleNow } : Memory)
      ∈ cleanupMemories "u" staleNow [c6Mem] := by
  have hsoft : softDeleteCond "u" (staleNow - 365 * 86400000) c6Mem = true := by
    norm_num [softDeleteCond, c6Mem, staleNow]
  have h := (C6_sweep "u" staleNow [c6Mem]).1 c6Mem (List.mem_cons_self _ _) (by decide)
  rwa [if_pos hsoft] at h

/-! ## Claim C8 -/

/-- Claim C8 (confirmed): every store query issued by relevance
retrieval and by the similarity lookup is scoped by the owner id, so a
memory belonging to owner `A` is never returned by `getRelevantMemories`
for a different owner `B` and never matched by `findSimilarMemory` for
`B`. -/
theorem C8_owner_isolation (A B : String) (ctx : RetrievalContext) (now : Int)
    (store : List Memory) (ins : Insight) (m : Memory) (hAB : A ≠ B) (hm : m.userId = A) :
    m ∉ (getRelevantMemories B ctx now store).1 ∧ findSimilarMemory B ins store ≠ some m := by
  constructor
  · intro hmem
    rcases List.mem_map.mp hmem with ⟨m0, hm0, heq⟩
    have hfil : m0 ∈ store.filter (queryMatch B ctx) :=
      (List.mem_insertionSort mongoLe).mp (List.take_subset _ _ hm0)
    have hq := (List.mem_filter.mp hfil).2
    have huid : m0.userId = B := by
      simp [queryMatch, Bool.and_eq_true, beq_iff_eq] at hq
      tauto
    have : m.userId = B := by
      rw [← heq]
      simpa [recordAccess] using huid
    exact hAB (hm.symm.trans this)
  · intro hfind
    have hp := List.find?_some hfind
    have huid : m.userId = B := by
      simp [similarPred, Bool.and_eq_true, beq_iff_eq] at hp
      tauto
    exact hAB (hm.symm.trans huid)

/-- Claim C8, witness: owner `alice`’s memory is invisible to owner
`bob`’s retrieval and similarity lookup. -/
theorem C8_owner_isolation_witness :
    w8Mem ∉ (getRelevantMemories "bob" emptyCtx 0 [w8Mem]).1 ∧
      findSimilarMemory "bob" w2Insight [w8Mem] ≠ some w8Mem :=
  C8_owner_isolation "alice" "bob" emptyCtx 0 [w8Mem] w2Insight w8Mem (by decide) rfl

/-! ## Claim C9 -/

/-- Claim C9 (counterexample): the claim states that every memory
returned by a relevance-ranking call has only its `accessCount` and
`lastAccessedAt` changed, with all other fields left unchanged.  The
`recordAccess()` call on each returned document ends in `this.save()`,
which under the schema option `timestamps: true` also refreshes
`updatedAt`: retrieving the single memory `wMem` (whose `updatedAt` is
`0`) at time `5` yields a returned memory and a stored copy whose
`updatedAt` is `5`. -/
theorem C9_counterexample :
    ((getRelevantMemories "u" emptyCtx 5 [wMem]).1.map fun m => m.updatedAt) = [5]
    ∧ wMem.updatedAt = 0
    ∧ ((getRelevantMemories "u" emptyCtx 5 [wMem]).2.map fun m => m.updatedAt) = [5] := by
  refine ⟨by decide, rfl, by decide⟩

/-- Claim C9 (amended): a relevance-ranking call returns at most the
default cap of 10 memories (the service takes no caller limit); every
returned memory is a store memory with `accessCount` incremented by
exactly one, `lastAccessed` set to the call’s timestamp, `updatedAt`
refreshed to the call’s timestamp by the save (schema option
`timestamps: true`), and every other field unchanged; store entries
whose id was not returned are unchanged, and those whose id was
returned carry exactly the incremented count and the two new
timestamps. -/
theorem C9_amended (uid : String) (ctx : RetrievalContext) (now : Int)
    (store : List Memory) :
    ((getRelevantMemories uid ctx now store).1).length ≤ 10
    ∧ ((getRelevantMemories uid ctx now store).2).length = store.length
    ∧ (∀ m ∈ (getRelevantMemories uid ctx now store).1, ∃ m0 ∈ store,
        m.id = m0.id ∧ m.accessCount = m0.accessCount + 1 ∧ m.lastAccessed = now ∧
        m.updatedAt = now ∧
        m.userId = m0.userId ∧ m.type = m0.type ∧ m.content = m0.content ∧
        m.importance = m0.importance ∧ m.sentiment = m0.sentiment ∧
        m.userEmotionWhenShared = m0.userEmotionWhenShared ∧ m.tags = m0.tags ∧
        m.relevantContexts = m0.relevantContexts ∧ m.effectiveness = m0.effectiveness ∧
        m.isActive = m0.isActive ∧ m.createdAt = m0.createdAt)
    ∧ (∀ m0 ∈ store,
        ((getRelevantMemories uid ctx now store).1.map fun s => s.id).contains m0.id = false →
        m0 ∈ (getRelevantMemories uid ctx now store).2)
    ∧ (∀ m0 ∈ store,
        ((getRelevantMemories uid ctx now store).1.map fun s => s.id).contains m0.id = true →
        ({ m0 with accessCount := m0.accessCount + 1, lastAccessed := now, updatedAt := now } : Memory)
          ∈ (getRelevantMemories uid ctx now store).2) := by
  have h1 : (getRelevantMemories uid ctx now store).1 =
      (rankSelection uid ctx store).map (recordAccess now none) := rfl
  have hids : (getRelevantMemories uid ctx now store).1.map (fun s => s.id) =
      (rankSelection uid ctx store).map fun s => s.id := by
    rw [h1, List.map_map]
    rfl
  refine ⟨?_, ?_, ?_, ?_, ?_⟩
  · rw [h1, List.length_map]
    exact List.length_take_le _ _
  · exact List.length_map _ _
  · intro m hm
    rw [h1] at hm
    rcases List.mem_map.mp hm with ⟨m0, hsel, heq⟩
    have hst : m0 ∈ store :=
      List.mem_of_mem_filter ((List.mem_insertionSort mongoLe).mp (List.take_subset _ _ hsel))
    refine ⟨m0, hst, ?_⟩
    rw [← heq]
    simp [recordAccess]
  · intro m0 hm0 hcont
    rw [hids] at hcont
    have hf :
        (if ((rankSelection uid ctx store).map fun s => s.id).contains m0.id then
          recordAccess now none m0 else m0) = m0 := by
      rw [hcont]
      simp
    exact List.mem_map.mpr ⟨m0, hm0, hf⟩
  · intro m0 hm0 hcont
    rw [hids] at hcont
    have hf :
        (if ((rankSelection uid ctx store).map fun s => s.id).contains m0.id then
          recordAccess now none m0 else m0) =
        ({ m0 with accessCount := m0.accessCount + 1, lastAccessed := now, updatedAt := now } : Memory) := by
      rw [hcont]
      simp [recordAccess]
    exact List.mem_map.mpr ⟨m0, hm0, hf⟩

/-- Claim C9 amended, witness: retrieving for owner `u` at time `5`
updates the stored copy of `wMem` to access count `3` and timestamps
`5`. -/
theorem C9_amended_witness :
    ({ wMem with accessCount := wMem.accessCount + 1, lastAccessed := 5, updatedAt := 5 } : Memory)
      ∈ (getRelevantMemories "u" emptyCtx 5 [wMem]).2 :=
  (C9_amended "u" emptyCtx 5 [wMem]).2.2.2.2 wMem (List.mem_cons_self _ _) (by decide)

/-! ## Claim C1 -/

/-- Claim C1 (counterexample): the claim states that the list returned
by `getRelevantMemories` is sorted descending by the composite score
`0.4*normalize(importance,1,10) + 0.3*recencyScore + 0.2*min(accessCount,10)/10
+ 0.1*effectiveness` with `updatedAt`/`id` tie-breaks.  With a fresh,
heavily used, fully effective memory of importance 5 and a stale, unused,
ineffective memory of importance 6, the code returns the importance-6
memory first although its composite score is far lower. -/
theorem C1_counterexample :
    ¬ List.Sorted (specOrder staleNow)
        ((getRelevantMemories "u" emptyCtx staleNow [c1MemA, c1MemB]).1) := by
  have hres : (getRelevantMemories "u" emptyCtx staleNow [c1MemA, c1MemB]).1 =
      [recordAccess staleNow none c1MemB, recordAccess staleNow none c1MemA] := by decide
  rw [hres]
  intro hs
  have h := (List.sorted_cons.mp hs).1 _ (List.mem_cons_self _ _)
  rcases h with h | ⟨heq, _⟩
  · norm_num [specCompositeScore, specRecencyScore, recordAccess, c1MemA, c1MemB,
      staleNow] at h
  · norm_num [specCompositeScore, specRecencyScore, recordAccess, c1MemA, c1MemB,
      staleNow] at heq

/-- Claim C1 (amended): the list returned by `getRelevantMemories` is
the access-updated image of a selection that is sorted descending by the
Mongo sort key (importance, then `lastAccessed`, then effectiveness —
not the composite score, and with no `updatedAt`/`id` tie-break), drawn
from the store entries matching the context query, and capped at the
default limit of 10. -/
theorem C1_amended (uid : String) (ctx : RetrievalContext) (now : Int) (store : List Memory) :
    (getRelevantMemories uid ctx now store).1 =
      (rankSelection uid ctx store).map (recordAccess now none)
    ∧ List.Sorted mongoLe (rankSelection uid ctx store)
    ∧ (∀ m ∈ rankSelection uid ctx store, queryMatch uid ctx m = true ∧ m ∈ store)
    ∧ (rankSelection uid ctx store).length ≤ maxMemoriesPerQuery := by
  refine ⟨rfl, ?_, ?_, List.length_take_le _ _⟩
  · exact List.Pairwise.sublist (List.take_sublist _ _)
      (List.sorted_insertionSort mongoLe (store.filter (queryMatch uid ctx)))
  · intro m hm
    have hfil : m ∈ store.filter (queryMatch uid ctx) :=
      (List.mem_insertionSort mongoLe).mp (List.take_subset _ _ hm)
    rcases List.mem_filter.mp hfil with ⟨hst, hq⟩
    exact ⟨hq, hst⟩

/-- Claim C1 amended, witness: the single matching memory `wMem` is
selected, query-matching and present in the store. -/
theorem C1_amended_witness :
    queryMatch "u" emptyCtx wMem = true ∧ wMem ∈ [wMem] :=
  (C1_amended "u" emptyCtx 5 [wMem]).2.2.1 wMem (by decide)

/-! ## Claim C7 machinery -/

theorem activePF_append (uid : String) (l1 l2 : List Memory) :
    activePF uid (l1 ++ l2) = activePF uid l1 ++ activePF uid l2 :=
  List.filter_append _ _

theorem activePF_singleton_of_map (uid c : String) (st : List Memory)
    (h : (activePF uid st).map (fun m => m.content) = [c]) :
    ∃ M, activePF uid st = [M] ∧ M.content = c ∧ M ∈ st ∧ M.userId = uid ∧
      M.type = MemType.personal_fact ∧ M.isActive = true := by
  cases hA : activePF uid st with
  | nil => rw [hA] at h; simp at h
  | cons M rest =>
    rw [hA] at h
    simp only [List.map_cons] at h
    rcases List.cons_eq_cons.mp h with ⟨hMc, hrest⟩
    have hrest2 : rest = [] := List.map_eq_nil.mp hrest
    subst hrest2
    have hMmem : M ∈ activePF uid st := by rw [hA]; exact List.mem_cons_self _ _
    rcases (mem_activePF uid M st).mp hMmem with ⟨hMst, hMu, hMt, hMa⟩
    exact ⟨M, rfl, hMc, hMst, hMu, hMt, hMa⟩

theorem pf_find_none (uid : String) (i : Insight) (st : List Memory)
    (hty : i.type = MemType.personal_fact) (hA : activePF uid st = []) :
    findSimilarMemory uid i st = none := by
  rw [findSimilarMemory, List.find?_eq_none]
  intro x hx hpx
  rcases (similarPred_pf_iff uid i x hty).mp hpx with ⟨h1, h2, h3, _⟩
  have : x ∈ activePF uid st := (mem_activePF uid x st).mpr ⟨hx, h1, h2, h3⟩
  rw [hA] at this
  cases this

theorem pf_find_some (uid : String) (i : Insight) (st : List Memory) (M : Memory)
    (hty : i.type = MemType.personal_fact) (hA : activePF uid st = [M])
    (hcc : ciContains M.content i.content = true) :
    findSimilarMemory uid i st = some M := by
  have hMmem : M ∈ activePF uid st := by rw [hA]; exact List.mem_cons_self _ _
  rcases (mem_activePF uid M st).mp hMmem with ⟨hMst, hMu, hMt, hMa⟩
  apply find?_unique (similarPred uid i) M st hMst
    ((similarPred_pf_iff uid i M hty).mpr ⟨hMu, hMt, hMa, hcc⟩)
  intro b hb hpb
  rcases (similarPred_pf_iff uid i b hty).mp hpb with ⟨g1, g2, g3, _⟩
  have : b ∈ activePF uid st := (mem_activePF uid b st).mpr ⟨hb, g1, g2, g3⟩
  rw [hA] at this
  exact List.mem_singleton.mp this

theorem resolveStep_pf (uid : String) (now : Int) (c : String) (i : Insight)
    (st acc : List Memory) (nid : Nat)
    (hic : i.type = MemType.personal_fact → i.content = c)
    (hpw : st.Pairwise fun a b => a.id ≠ b.id)
    (hbd : ∀ m ∈ st, m.id < nid)
    (hst : (activePF uid st).map (fun m => m.content) = [] ∨
           (activePF uid st).map (fun m => m.content) = [c]) :
    ((resolveStep uid now (st, acc, nid) i).1.Pairwise fun a b => a.id ≠ b.id)
    ∧ (∀ m ∈ (resolveStep uid now (st, acc, nid) i).1,
        m.id < (resolveStep uid now (st, acc, nid) i).2.2)
    ∧ ((activePF uid (resolveStep uid now (st, acc, nid) i).1).map (fun m => m.content) = [] ∨
       (activePF uid (resolveStep uid now (st, acc, nid) i).1).map (fun m => m.content) = [c])
    ∧ ((activePF uid st).map (fun m => m.content) = [c] →
        (activePF uid (resolveStep uid now (st, acc, nid) i).1).map (fun m => m.content) = [c]
        ∧ (resolveStep uid now (st, acc, nid) i).2.1.countP isPFMem = acc.countP isPFMem)
    ∧ (i.type = MemType.personal_fact →
        (activePF uid (resolveStep uid now (st, acc, nid) i).1).map (fun m => m.content) = [c]) := by
  cases hfind : findSimilarMemory uid i st with
  | none =>
    have hstep : resolveStep uid now (st, acc, nid) i =
        (st ++ [storeMemory uid now nid i], acc ++ [storeMemory uid now nid i], nid + 1) := by
      simp only [resolveStep, hfind]
    rw [hstep]
    have hpair : (st ++ [storeMemory uid now nid i]).Pairwise fun a b => a.id ≠ b.id := by
      rw [List.pairwise_append]
      refine ⟨hpw, List.pairwise_singleton _ _, ?_⟩
      intro a ha b hb
      rw [List.mem_singleton.mp hb]
      exact Nat.ne_of_lt (hbd a ha)
    have hbound : ∀ m ∈ st ++ [storeMemory uid now nid i], m.id < nid + 1 := by
      intro m hm
      rcases List.mem_append.mp hm with h | h
      · exact Nat.lt_succ_of_lt (hbd m h)
      · rw [List.mem_singleton.mp h]
        exact Nat.lt_succ_self nid
    by_cases hty : i.type = MemType.personal_fact
    · rcases hst with h0 | h0
      · have hnew : activePF uid [storeMemory uid now nid i] = [storeMemory uid now nid i] := by
          simp [activePF, storeMemory, List.filter, hty]
        have hres : (activePF uid (st ++ [storeMemory uid now nid i])).map
            (fun m => m.content) = [c] := by
          rw [activePF_append, List.map_eq_nil.mp h0, hnew]
          simp [storeMemory, hic hty]
        refine ⟨hpair, hbound, Or.inr hres, ?_, fun _ => hres⟩
        intro hc
        rw [h0] at hc
        cases hc
      · rcases activePF_singleton_of_map uid c st h0 with ⟨M, hA, hMc, _, _, _, _⟩
        have := pf_find_some uid i st M hty hA (by rw [hMc, hic hty]; exact ciContains_self c)
        rw [hfind] at this
        cases this
    · have hnew : activePF uid [storeMemory uid now nid i] = [] := by
        simp [activePF, storeMemory, List.filter, hty]
      have hres : activePF uid (st ++ [storeMemory uid now nid i]) = activePF uid st := by
        rw [activePF_append, hnew, List.append_nil]
      have hcnt : (acc ++ [storeMemory uid now nid i]).countP isPFMem = acc.countP isPFMem := by
        rw [List.countP_append]
        simp [isPFMem, storeMemory, hty]
      refine ⟨hpair, hbound, ?_, ?_, fun h => absurd h hty⟩
      · rw [hres]; exact hst
      · intro hc
        rw [hres]
        exact ⟨hc, hcnt⟩
  | some m' =>
    have hp := List.find?_some hfind
    have hm'st := List.mem_of_find?_eq_some hfind
    have hm'ty : m'.type = i.type := by
      simp only [similarPred, Bool.and_eq_true, decide_eq_true_eq, beq_iff_eq] at hp
      tauto
    have hstep : resolveStep uid now (st, acc, nid) i =
        (st.map fun x => if x.id = m'.id then updateMemory now i x else x, acc, nid) := by
      simp only [resolveStep, hfind]
    rw [hstep]
    have hidpres : ∀ x : Memory,
        ((fun x => if x.id = m'.id then updateMemory now i x else x) x).id = x.id := by
      intro x
      by_cases hx : x.id = m'.id <;> simp [hx, updateMemory]
    have hpk : ∀ x : Memory,
        (fun m => m.userId == uid && decide (m.type = MemType.personal_fact) && m.isActive)
            ((fun x => if x.id = m'.id then updateMemory now i x else x) x) =
          (fun m => m.userId == uid && decide (m.type = MemType.personal_fact) && m.isActive)
            x := by
      intro x
      by_cases hx : x.id = m'.id <;> simp [hx, updateMemory]
    have hAmap : activePF uid
        (st.map fun x => if x.id = m'.id then updateMemory now i x else x) =
        (activePF uid st).map fun x => if x.id = m'.id then updateMemory now i x else x := by
      rw [activePF, activePF]
      exact filter_map_comm _ _ hpk st
    have hpair : (st.map fun x => if x.id = m'.id then updateMemory now i x else x).Pairwise
        fun a b => a.id ≠ b.id := pairwise_ids_map _ hidpres st hpw
    have hbound : ∀ m ∈ (st.map fun x => if x.id = m'.id then updateMemory now i x else x),
        m.id < nid := by
      intro m hm
      rcases List.mem_map.mp hm with ⟨x, hx, heq⟩
      rw [← heq, hidpres x]
      exact hbd x hx
    by_cases hty : i.type = MemType.personal_fact
    · rcases hst with h0 | h0
      · have := pf_find_none uid i st hty (List.map_eq_nil.mp h0)
        rw [hfind] at this
        cases this
      · rcases activePF_singleton_of_map uid c st h0 with ⟨M, hA, hMc, hMst, hMu, hMt, hMa⟩
        have hm'M : m' = M := by
          rcases (similarPred_pf_iff uid i m' hty).mp hp with ⟨g1, g2, g3, _⟩
          have : m' ∈ activePF uid st := (mem_activePF uid m' st).mpr ⟨hm'st, g1, g2, g3⟩
          rw [hA] at this
          exact List.mem_singleton.mp this
        have hres : (activePF uid
            (st.map fun x => if x.id = m'.id then updateMemory now i x else x)).map
            (fun m => m.content) = [c] := by
          rw [hAmap, hA]
          simp [hm'M, updateMemory, hic hty]
        exact ⟨hpair, hbound, Or.inr hres, fun _ => ⟨hres, rfl⟩, fun _ => hres⟩
    · have hfix : ∀ x ∈ activePF uid st,
          (fun x => if x.id = m'.id then updateMemory now i x else x) x = x := by
        intro x hx
        rcases (mem_activePF uid x st).mp hx with ⟨hxst, _, hxt, _⟩
        have hne : x ≠ m' := by
          intro hxm
          exact hty (by rw [← hm'ty, ← hxm, hxt])
        show (if x.id = m'.id then updateMemory now i x else x) = x
        rw [if_neg (pairwise_ids_ne hpw hxst hm'st hne)]
      have hres : activePF uid
          (st.map fun x => if x.id = m'.id then updateMemory now i x else x) =
          activePF uid st := by
        rw [hAmap]
        exact map_eq_self_of _ _ hfix
      refine ⟨hpair, hbound, ?_, ?_, fun h => absurd h hty⟩
      · rw [hres]; exact hst
      · intro hc
        rw [hres]
        exact ⟨hc, rfl⟩

theorem pfFold_inv (uid c : String) (now : Int) :
    ∀ (insights : List Insight) (st acc : List Memory) (nid : Nat),
      (∀ i ∈ insights, i.type = MemType.personal_fact → i.content = c) →
      (st.Pairwise fun a b => a.id ≠ b.id) →
      (∀ m ∈ st, m.id < nid) →
      ((activePF uid st).map (fun m => m.content) = [] ∨
        (activePF uid st).map (fun m => m.content) = [c]) →
      (((insights.foldl (resolveStep uid now) (st, acc, nid)).1.Pairwise
          fun a b => a.id ≠ b.id)
      ∧ (∀ m ∈ (insights.foldl (resolveStep uid now) (st, acc, nid)).1,
          m.id < (insights.foldl (resolveStep uid now) (st, acc, nid)).2.2)
      ∧ ((activePF uid (insights.foldl (resolveStep uid now) (st, acc, nid)).1).map
            (fun m => m.content) = []
        ∨ (activePF uid (insights.foldl (resolveStep uid now) (st, acc, nid)).1).map
            (fun m => m.content) = [c])
      ∧ ((activePF uid st).map (fun m => m.content) = [c] →
          (activePF uid (insights.foldl (resolveStep uid now) (st, acc, nid)).1).map
              (fun m => m.content) = [c]
          ∧ (insights.foldl (resolveStep uid now) (st, acc, nid)).2.1.countP isPFMem
              = acc.countP isPFMem)
      ∧ ((∃ i ∈ insights, i.type = MemType.personal_fact) →
          (activePF uid (insights.foldl (resolveStep uid now) (st, acc, nid)).1).map
              (fun m => m.content) = [c])) := by
  intro insights
  induction insights with
  | nil =>
    intro st acc nid h1 hpw hbd hst
    refine ⟨hpw, hbd, hst, fun hc => ⟨hc, rfl⟩, ?_⟩
    rintro ⟨i, hi, _⟩
    cases hi
  | cons i rest ih =>
    intro st acc nid h1 hpw hbd hst
    rw [List.foldl_cons]
    obtain ⟨spw, sbd, sst, s4, s5⟩ := resolveStep_pf uid now c i st acc nid
      (h1 i (List.mem_cons_self _ _)) hpw hbd hst
    obtain ⟨f1, f2, f3, f4, f5⟩ := ih (resolveStep uid now (st, acc, nid) i).1
      (resolveStep uid now (st, acc, nid) i).2.1
      (resolveStep uid now (st, acc, nid) i).2.2
      (fun j hj => h1 j (List.mem_cons_of_mem _ hj)) spw sbd sst
    refine ⟨f1, f2, f3, ?_, ?_⟩
    · intro hc
      obtain ⟨hres, hcnt⟩ := s4 hc
      obtain ⟨hres2, hcnt2⟩ := f4 hres
      exact ⟨hres2, hcnt2.trans hcnt⟩
    · rintro ⟨j, hj, hjpf⟩
      rcases List.mem_cons.mp hj with rfl | hj2
      · exact (f4 (s5 hjpf)).1
      · exact f5 ⟨j, hj2, hjpf⟩

/-! ## Claim C7 -/

/-- Claim C7 (counterexample): submitting the utterance
`"My name is X252 and I am 25 years old"` twice for the same owner does
not merge the second submission into the first’s memories.  The first
pass stores `X252`, then the same pass’s second candidate `25` merges
into it and overwrites the content to `25`; on the second pass the
candidate `X252` no longer has a containing memory, so the service
stores a new memory instead of merging and ends with two active
`personal_fact` memories. -/
theorem C7_counterexample :
    ((processConversationForMemories "u" c7Utterance none 0 1 []).1.map fun m => m.content)
        = ["25"]
    ∧ ((processConversationForMemories "u" c7Utterance none 1
          (processConversationForMemories "u" c7Utterance none 0 1 []).2.2
          (processConversationForMemories "u" c7Utterance none 0 1 []).1).2.1.map
        fun m => m.content) = ["X252"]
    ∧ ((processConversationForMemories "u" c7Utterance none 1
          (processConversationForMemories "u" c7Utterance none 0 1 []).2.2
          (processConversationForMemories "u" c7Utterance none 0 1 []).1).1.filter
        fun m => isPFMem m && m.isActive).length = 2 := by
  refine ⟨by decide, by decide, by decide⟩

/-- Claim C7 (amended): when every `personal_fact` candidate extracted
from the utterance has one and the same content (in particular for
single-fact utterances), submitting the utterance twice for an owner
with no prior active `personal_fact` memory yields exactly one active
`personal_fact` memory, holding that content after each submission, and
the second submission stores no `personal_fact` memory (every candidate
merges). -/
theorem C7_amended (uid msg : String) (now1 now2 : Int) (nid : Nat)
    (store0 : List Memory) (c : String)
    (h1 : ∀ i ∈ extractInsights msg none, i.type = MemType.personal_fact → i.content = c)
    (h2 : ∃ i ∈ extractInsights msg none, i.type = MemType.personal_fact)
    (h3 : activePF uid store0 = [])
    (h4 : store0.Pairwise fun a b => a.id ≠ b.id)
    (h5 : ∀ m ∈ store0, m.id < nid) :
    ((activePF uid (processConversationForMemories uid msg none now1 nid store0).1).map
        (fun m => m.content) = [c])
    ∧ ((activePF uid (processConversationForMemories uid msg none now2
          (processConversationForMemories uid msg none now1 nid store0).2.2
          (processConversationForMemories uid msg none now1 nid store0).1).1).map
        (fun m => m.content) = [c])
    ∧ (processConversationForMemories uid msg none now2
          (processConversationForMemories uid msg none now1 nid store0).2.2
          (processConversationForMemories uid msg none now1 nid store0).1).2.1.countP isPFMem
        = 0 := by
  obtain ⟨p1pw, p1bd, _, _, p1pf⟩ := pfFold_inv uid c now1 (extractInsights msg none)
    store0 [] nid h1 h4 h5 (Or.inl (by rw [h3]; rfl))
  have hpass1 :
      (activePF uid (processConversationForMemories uid msg none now1 nid store0).1).map
        (fun m => m.content) = [c] := p1pf h2
  obtain ⟨_, _, _, p2c, _⟩ := pfFold_inv uid c now2 (extractInsights msg none)
    (processConversationForMemories uid msg none now1 nid store0).1 []
    (processConversationForMemories uid msg none now1 nid store0).2.2
    h1 p1pw p1bd (Or.inr hpass1)
  obtain ⟨hres2, hcnt⟩ := p2c hpass1
  exact ⟨hpass1, hres2, hcnt.trans rfl⟩

/-- Claim C7 amended, witness: submitting `"My name is Dana"` twice from
an empty store keeps exactly one active `personal_fact` memory `Dana`,
and the second submission stores nothing. -/
theorem C7_amended_witness :
    ((activePF "u" (processConversationForMemories "u" c7SingleMsg none 0 1 []).1).map
        (fun m => m.content) = ["Dana"])
    ∧ ((activePF "u" (processConversationForMemories "u" c7SingleMsg none 2
          (processConversationForMemories "u" c7SingleMsg none 0 1 []).2.2
          (processConversationForMemories "u" c7SingleMsg none 0 1 []).1).1).map
        (fun m => m.content) = ["Dana"])
    ∧ (processConversationForMemories "u" c7SingleMsg none 2
          (processConversationForMemories "u" c7SingleMsg none 0 1 []).2.2
          (processConversationForMemories "u" c7SingleMsg none 0 1 []).1).2.1.countP isPFMem
        = 0 :=
  C7_amended "u" c7SingleMsg 0 2 1 [] "Dana" (by decide) (by decide) rfl
    List.Pairwise.nil (by simp)

/-! ## Claim C10 -/

theorem pref_find_isSome (uid : String) (ins : Insight) (store : List Memory)
    (hty : ins.type = MemType.preference) (htag : "preference" ∈ ins.tags)
    (hex : ∃ m ∈ store, m.userId = uid ∧ m.type = MemType.preference ∧
      m.isActive = true ∧ "preference" ∈ m.tags) :
    (findSimilarMemory uid ins store).isSome = true := by
  rcases hex with ⟨m, hm, hu, ht, ha, hpt⟩
  rw [findSimilarMemory, List.find?_isSome]
  refine ⟨m, hm, ?_⟩
  rw [similarPred_pref_iff uid ins m hty]
  refine ⟨hu, ht, ha, ?_⟩
  rw [List.any_eq_true]
  refine ⟨"preference", htag, ?_⟩
  simpa using hpt

/-- Claim C10 (confirmed): `extractTags` always places the candidate’s
kind string into its tag list, so every extraction-produced `preference`
insight carries the tag `preference`; the resolver’s preference
similarity matches on any tag intersection, so as soon as the owner has
one active preference memory tagged `preference`, every further
preference candidate finds a similar memory and is merged — the resolver
step leaves the number of preference memories, the number of stored
`personal_fact` memories and the store length unchanged and records no
new memory. -/
theorem C10_preference_merge :
    (∀ (content : String) (t : MemType), memTypeStr t ∈ extractTags content t)
    ∧ (∀ (msg : String) (emo : Option String), ∀ i ∈ extractInsights msg emo,
        i.type = MemType.preference → "preference" ∈ i.tags)
    ∧ (∀ (uid : String) (ins : Insight) (store : List Memory),
        ins.type = MemType.preference → "preference" ∈ ins.tags →
        (∃ m ∈ store, m.userId = uid ∧ m.type = MemType.preference ∧ m.isActive = true ∧
          "preference" ∈ m.tags) →
        (findSimilarMemory uid ins store).isSome = true)
    ∧ (∀ (uid : String) (now : Int) (st acc : List Memory) (nid : Nat) (ins : Insight),
        ins.type = MemType.preference → "preference" ∈ ins.tags →
        (∃ m ∈ st, m.userId = uid ∧ m.type = MemType.preference ∧ m.isActive = true ∧
          "preference" ∈ m.tags) →
        ((resolveStep uid now (st, acc, nid) ins).1.countP
            (fun m => decide (m.type = MemType.preference)) =
          st.countP (fun m => decide (m.type = MemType.preference))
        ∧ (resolveStep uid now (st, acc, nid) ins).2.1 = acc
        ∧ (resolveStep uid now (st, acc, nid) ins).1.length = st.length)) := by
  refine ⟨extractTags_type_mem, ?_, pref_find_isSome, ?_⟩
  · intro msg emo i hi htype
    rcases List.mem_append.mp hi with hpat | hctx
    · rcases List.mem_filterMap.mp hpat with ⟨p, hp, hmap⟩
      rcases Option.map_eq_some'.mp hmap with ⟨raw, hraw, hbuild⟩
      have htags : i.tags = extractTags i.content p.type := by rw [← hbuild]
      have hty : i.type = p.type := by rw [← hbuild]
      have hpty : p.type = MemType.preference := hty.symm.trans htype
      rw [htags, hpty]
      exact extractTags_type_mem i.content MemType.preference
    · cases emo with
      | none => simp at hctx
      | some e =>
        have hctx2 : i ∈ (if (e != "neutral") = true then
            [{ type := MemType.emotional_pattern,
               content := "User expressed " ++ e ++ " emotion in conversation",
               importance := 6, sentiment := emotionToSentiment e,
               confidence := none, tags := [e, "emotional_pattern"] }]
          else ([] : List Insight)) := hctx
        by_cases he : (e != "neutral") = true
        · rw [if_pos he] at hctx2
          have := List.mem_singleton.mp hctx2
          subst this
          simp at htype
        · rw [if_neg he] at hctx2
          simp at hctx2
  · intro uid now st acc nid ins hty htag hex
    have hsome := pref_find_isSome uid ins st hty htag hex
    rcases Option.isSome_iff_exists.mp hsome with ⟨m', hfind⟩
    have hkey : ∀ x : Memory,
        (fun m => decide (m.type = MemType.preference))
            ((fun x => if x.id = m'.id then updateMemory now ins x else x) x) =
          (fun m => decide (m.type = MemType.preference)) x := by
      intro x
      by_cases hx : x.id = m'.id
      · simp [hx, updateMemory]
      · simp [hx]
    have hstep : resolveStep uid now (st, acc, nid) ins =
        (st.map fun x => if x.id = m'.id then updateMemory now ins x else x, acc, nid) := by
      simp only [resolveStep, hfind]
    rw [hstep]
    exact ⟨countP_map_eq _ _ hkey st, rfl, List.length_map _ _⟩

/-- Claim C10, witness: with one active `preference` memory stored for
owner `u`, a later preference candidate about an unrelated topic is
merged — the resolver stores nothing new and keeps one preference
memory. -/
theorem C10_preference_merge_witness :
    ((resolveStep "u" 3 ([wPrefMem], [], 5) wPrefInsight).1.countP
        (fun m => decide (m.type = MemType.preference)) =
      ([wPrefMem] : List Memory).countP (fun m => decide (m.type = MemType.preference))
    ∧ (resolveStep "u" 3 ([wPrefMem], [], 5) wPrefInsight).2.1 = []
    ∧ (resolveStep "u" 3 ([wPrefMem], [], 5) wPrefInsight).1.length =
        ([wPrefMem] : List Memory).length) :=
  C10_preference_merge.2.2.2 "u" 3 [wPrefMem] [] 5 wPrefInsight rfl (by decide)
    ⟨wPrefMem, List.mem_cons_self _ _, rfl, rfl, rfl, by decide⟩

end Stan


-- TEMP
open Stan in
example : ((extractInsights "My favorite color is blue and I study at MIT" none).map
    fun i => (memTypeStr i.type, i.content)) = [("preference", "My favorite")] := by decide
open Stan in
example : ((extractInsights "My name is X252 and I am 25 years old" none).map
    fun i => (memTypeStr i.type, i.content)) =
    [("personal_fact", "X252"), ("personal_fact", "25")] := by decide
